import Mathlib

/-!
# Shallow embedding of `src/notes.py`

The Python module defines four components:

* `Note` — a pitch with a `note` string (the capitalized raw input) and a
  `sharpness` string (always initialized to `""` by `Note.__init__`);
* `NoteCollection` — an ordered, deduplicating list of notes;
* `Chord` — 2–3 notes plus a chord name, validated at construction;
* `Chords` — a registry of chords with overlap checking and order-independent
  lookup.

Python strings are `String`, Python `None`-able note parameters are
`Option Note`, raised exceptions are `Except` errors, and the floating-point
pitch index (a whole number plus or minus `0.5`, always exact in binary
floating point) is modelled as `ℚ`.

Python's built-in `hash` of the `(note, sharpness)` tuple is modelled by the
tuple itself: equal tuples hash equal in Python, and distinct tuples are
treated as hashing distinct (the idealization of Python's tuple/str hash that
the set-semantics model below relies on).

Python `set` values built from lists of strings or of notes are modelled by
the underlying lists together with membership/equality predicates that mirror
CPython's lookup discipline: an element is a member when some stored element
has an equal hash AND compares equal with `==`.
-/

/-- Model of Python `str.capitalize()` (ASCII inputs): first character
uppercased, the remaining characters lowercased. -/
def pyCapitalize (s : String) : String :=
  match s.data with
  | [] => ""
  | c :: rest => String.mk (c.toUpper :: rest.map Char.toLower)

/-- Model of Python `haystack.find(c)` for a single-character needle:
the index of the first occurrence of `c`, or `-1` when absent. -/
def strFind (s : String) (c : Char) : Int :=
  match s.data.findIdx? (fun x => x == c) with
  | some i => (i : Int)
  | none => -1

/-- Model of Python `a in b` on strings: `a` is a contiguous substring
of `b` (the empty string is a substring of everything). -/
def pyStrIn (a b : String) : Bool :=
  decide (a.data <:+: b.data)

/-- `string.ascii_uppercase` from the Python standard library. -/
def asciiUppercase : String := "ABCDEFGHIJKLMNOPQRSTUVWXYZ"

/-- The state of a Python `Note` object: `self.note` (the capitalized raw
input string) and `self.sharpness` (set to `""` by `__init__` and never
written anywhere else in the module). -/
structure Note where
  note : String
  sharpness : String
deriving DecidableEq

/-- `Note.__init__`: `self.note = note.capitalize()`, `self.sharpness = ""`. -/
def mkNote (note : String) : Note :=
  { note := pyCapitalize note, sharpness := "" }

/-- `Note.get_index`: position of the first character in the uppercase
alphabet (`-1` when absent), `+0.5` when the second character is `'#'`,
`-0.5` when it is `'b'`, wrapped by `+26` when negative (the wrap test sits
inside the `len > 1` branch, exactly as in the source).

Python raises `IndexError` on `self.note[0]` when the note string is empty;
the embedding totalizes that single degenerate case with a default character
(which is not in the alphabet, so `strFind` yields `-1`).  Every theorem
below that quantifies over raw note strings carries a nonemptiness
hypothesis so that it only speaks about inputs where the embedding and the
Python code agree. -/
def Note.get_index (self : Note) : ℚ :=
  let position : ℚ := ((strFind asciiUppercase (self.note.data.headD ' ') : Int) : ℚ)
  if 1 < self.note.length then
    let position :=
      if self.note.data.getD 1 ' ' = '#' then position + 1/2
      else if self.note.data.getD 1 ' ' = 'b' then position - 1/2
      else position
    if position < 0 then position + 26 else position
  else
    position

/-- `Note.__eq__` (on `Note` arguments): index equality together with
`self.sharpness in other.sharpness` — the receiver's sharpness must be a
substring of the argument's sharpness. -/
def Note.eq (self other : Note) : Bool :=
  decide (Note.get_index self = Note.get_index other) && pyStrIn self.sharpness other.sharpness

/-- `Note.__hash__`: `hash((self.note, self.sharpness))`, modelled by the
tuple the hash is computed from. -/
def Note.hash (self : Note) : String × String :=
  (self.note, self.sharpness)

/-- The display string `f"{note.note}{note.sharpness or ''}"` used by
`Chords.get` (for a falsy — i.e. empty — sharpness the `or ''` still
produces the empty string, so this is plain concatenation). -/
def Note.display (self : Note) : String :=
  self.note ++ self.sharpness

/-- `NoteCollection.add`: append the note unless an equal note is already
present (`note not in self.notes`, where Python's list membership compares
`note == element` with the new note on the left).  The `isinstance` guard
raising `TypeError` is structurally unreachable in the typed embedding. -/
def NoteCollection.add (self : List Note) (note : Note) : List Note :=
  if self.any (fun n => Note.eq note n) then self else self ++ [note]

/-- The two exception classes of the module. -/
inductive MusicErr where
  | duplicateNoteNamesException
  | chordOverlapException
deriving DecidableEq

/-- The state of a Python `Chord` object: the sorted note list and the
chord name. -/
structure Chord where
  notes : List Note
  chord_name : String
deriving DecidableEq

/-- Python string comparison: lexicographic over code points. -/
def strLtChars : List Char → List Char → Bool
  | [], [] => false
  | [], _ :: _ => true
  | _ :: _, [] => false
  | a :: as, b :: bs => if a < b then true else if b < a then false else strLtChars as bs

/-- Strict comparison of the Python sort key `(x.note, x.sharpness)`
(lexicographic tuple comparison over string code-point order). -/
def noteKeyLt (a b : Note) : Bool :=
  strLtChars a.note.data b.note.data ||
    (a.note == b.note && strLtChars a.sharpness.data b.sharpness.data)

/-- Insert a note into an already sorted list, before the first entry whose
key is not strictly smaller (so Python's stable `sorted` is reproduced). -/
def insertNote (n : Note) : List Note → List Note
  | [] => [n]
  | m :: rest => if noteKeyLt m n then m :: insertNote n rest else n :: m :: rest

/-- Model of Python `sorted(notes, key=lambda x: (x.note, x.sharpness))`:
a stable insertion sort by the same key. -/
def sortNotes : List Note → List Note
  | [] => []
  | n :: rest => insertNote n (sortNotes rest)

/-- The note list `[note_one, note_two, note_three] if note_three else
[note_one, note_two]` assembled by `Chord.__init__` (and again, with the
same shape, by `Chords.get`); a `Note` object is always truthy, so the
test is exactly `note_three is not None`. -/
def chordNotesList (note_one note_two : Note) (note_three : Option Note) : List Note :=
  match note_three with
  | some n3 => [note_one, note_two, n3]
  | none => [note_one, note_two]

/-- `Chord.__init__`: collect the 2–3 notes, raise
`DuplicateNoteNamesException` when `len(set(note_names)) != len(notes)` or
`len(set(note_names + [chord_name])) != len(note_names) + 1` (full-string
comparisons of the stored `note` fields and of the whole chord name), and
otherwise store the notes sorted by `(note, sharpness)`.  `len(set(·))` on a
list of strings counts distinct elements, i.e. `(·).dedup.length`. -/
def chordMk (note_one note_two : Note) (chord_name : String) (note_three : Option Note) :
    Except MusicErr Chord :=
  let notes := chordNotesList note_one note_two note_three
  let note_names := notes.map (fun n => n.note)
  if note_names.dedup.length ≠ notes.length ∨
      (note_names ++ [chord_name]).dedup.length ≠ note_names.length + 1 then
    Except.error MusicErr.duplicateNoteNamesException
  else
    Except.ok { notes := sortNotes notes, chord_name := chord_name }

/-- CPython set membership for a `Note` element: some stored entry has an
equal hash and compares equal (`entry == x`, stored entry on the left). -/
def pySetMemNote (x : Note) (l : List Note) : Bool :=
  l.any (fun y => decide (Note.hash y = Note.hash x) && Note.eq y x)

/-- Python `set(a) == set(b)` on note lists: mutual membership. -/
def pySetEqNote (a b : List Note) : Bool :=
  a.all (fun x => pySetMemNote x b) && b.all (fun x => pySetMemNote x a)

/-- `Chord.__eq__` (on `Chord` arguments): `set(self.notes) == set(other.notes)`. -/
def Chord.eq (self other : Chord) : Bool :=
  pySetEqNote self.notes other.notes

/-- CPython set membership for a string element (string hashing is exact:
membership is plain string equality). -/
def pySetMemStr (x : String) (l : List String) : Bool :=
  l.any (fun y => y == x)

/-- Python `set(a) == set(b)` on string lists: mutual membership. -/
def pySetEqStr (a b : List String) : Bool :=
  a.all (fun x => pySetMemStr x b) && b.all (fun x => pySetMemStr x a)

/-- The scan loop of `Chords.add`: `True` when some existing chord's note
set equals the new chord's note set. -/
def overlapScan (chords : List Chord) (chord : Chord) : Bool :=
  match chords with
  | [] => false
  | existing :: rest => pySetEqNote existing.notes chord.notes || overlapScan rest chord

/-- `Chords.add`: raise `ChordOverlapException` when the scan finds an
existing chord with a set-equal note set (the raise happens before the
append, so the registry is unchanged on failure); otherwise append. -/
def Chords.add (self : List Chord) (chord : Chord) : Except MusicErr (List Chord) :=
  if overlapScan self chord then Except.error MusicErr.chordOverlapException
  else Except.ok (self ++ [chord])

/-- The scan loop of `Chords.get`: first chord whose display-string set
equals the query set, else `None`. -/
def getScan (input_set : List String) : List Chord → Option Chord
  | [] => none
  | chord :: rest =>
      if pySetEqStr input_set (chord.notes.map Note.display) then some chord
      else getScan input_set rest

/-- `Chords.get`: build the query list of 2–3 notes (same truthiness shape
as `Chord.__init__`), take their display strings as a set, and return the
first registered chord whose note display-string set equals it. -/
def Chords.get (self : List Chord) (first_note second_note : Note) (third_note : Option Note) :
    Option Chord :=
  let input_notes := chordNotesList first_note second_note third_note
  getScan (input_notes.map Note.display) self

/-- The letter with alphabet position `i` (`letterOf 0 = 'A'`). -/
def letterOf (i : Fin 26) : Char := Char.ofNat (65 + i.val)

/-- The three supported alterations, indexed. -/
def altOf (j : Fin 3) : String := ["", "#", "b"].getD j.val ""

/-- Proof-side companion of `Note.get_index`, measured in half-units so that
it stays inside `Int`: `get_index_eq` below proves
`Note.get_index n = halfSteps n / 2`.  All of the library's rational
operations are `@[irreducible]`, so concrete pitch computations are carried
out on this integer form. -/
def halfSteps (self : Note) : Int :=
  let position : Int := 2 * strFind asciiUppercase (self.note.data.headD ' ')
  if 1 < self.note.length then
    let position :=
      if self.note.data.getD 1 ' ' = '#' then position + 1
      else if self.note.data.getD 1 ' ' = 'b' then position - 1
      else position
    if position < 0 then position + 52 else position
  else
    position

/-- `Note.get_index` is the half of `halfSteps`, as rationals. -/
theorem get_index_eq (n : Note) : Note.get_index n = (halfSteps n : ℚ) / 2 := by
  unfold Note.get_index halfSteps
  dsimp only
  by_cases hlen : 1 < n.note.length
  · rw [if_pos hlen, if_pos hlen]
    generalize strFind asciiUppercase (n.note.data.headD ' ') = f
    by_cases h1 : n.note.data.getD 1 ' ' = '#'
    · rw [if_pos h1, if_pos h1]
      by_cases hneg : (2 * f + 1 : ℤ) < 0
      · have hq : ((f : ℤ) : ℚ) + 1 / 2 < 0 := by
          have h2 : ((2 * f + 1 : ℤ) : ℚ) < 0 := by exact_mod_cast hneg
          push_cast at h2
          linarith
        rw [if_pos hq, if_pos hneg]
        push_cast
        ring
      · have hq : ¬ (((f : ℤ) : ℚ) + 1 / 2 < 0) := by
          have h2 : (0 : ℚ) ≤ ((2 * f + 1 : ℤ) : ℚ) := by exact_mod_cast Int.not_lt.mp hneg
          push_cast at h2
          intro hc
          linarith
        rw [if_neg hq, if_neg hneg]
        push_cast
        ring
    · rw [if_neg h1, if_neg h1]
      by_cases h2 : n.note.data.getD 1 ' ' = 'b'
      · rw [if_pos h2, if_pos h2]
        by_cases hneg : (2 * f - 1 : ℤ) < 0
        · have hq : ((f : ℤ) : ℚ) - 1 / 2 < 0 := by
            have h3 : ((2 * f - 1 : ℤ) : ℚ) < 0 := by exact_mod_cast hneg
            push_cast at h3
            linarith
          rw [if_pos hq, if_pos hneg]
          push_cast
          ring
        · have hq : ¬ (((f : ℤ) : ℚ) - 1 / 2 < 0) := by
            have h3 : (0 : ℚ) ≤ ((2 * f - 1 : ℤ) : ℚ) := by exact_mod_cast Int.not_lt.mp hneg
            push_cast at h3
            intro hc
            linarith
          rw [if_neg hq, if_neg hneg]
          push_cast
          ring
      · rw [if_neg h2, if_neg h2]
        by_cases hneg : (2 * f : ℤ) < 0
        · have hq : ((f : ℤ) : ℚ) < 0 := by
            have h3 : ((2 * f : ℤ) : ℚ) < 0 := by exact_mod_cast hneg
            push_cast at h3
            linarith
          rw [if_pos hq, if_pos hneg]
          push_cast
          ring
        · have hq : ¬ (((f : ℤ) : ℚ) < 0) := by
            have h3 : (0 : ℚ) ≤ ((2 * f : ℤ) : ℚ) := by exact_mod_cast Int.not_lt.mp hneg
            push_cast at h3
            intro hc
            linarith
          rw [if_neg hq, if_neg hneg]
          push_cast
          ring
  · rw [if_neg hlen, if_neg hlen]
    push_cast
    ring

/-- Two pitch indices are equal exactly when the integer half-step values
are. -/
theorem get_index_eq_iff (a b : Note) :
    Note.get_index a = Note.get_index b ↔ halfSteps a = halfSteps b := by
  rw [get_index_eq, get_index_eq]
  constructor
  · intro h
    have h2 : ((halfSteps a : ℚ) / 2) * 2 = ((halfSteps b : ℚ) / 2) * 2 := by rw [h]
    rw [div_mul_cancel₀ _ (by norm_num : (2 : ℚ) ≠ 0),
        div_mul_cancel₀ _ (by norm_num : (2 : ℚ) ≠ 0)] at h2
    exact_mod_cast h2
  · intro h
    rw [h]

/-- `Note.eq` evaluated on the integer half-step form. -/
theorem note_eq_eval (a b : Note) :
    Note.eq a b = (decide (halfSteps a = halfSteps b) && pyStrIn a.sharpness b.sharpness) := by
  unfold Note.eq
  rw [decide_eq_decide.mpr (get_index_eq_iff a b)]

/-- The empty string is contained in the empty string (Python `"" in ""`). -/
theorem pyStrIn_empty_empty : pyStrIn "" "" = true := by decide

/-- Containment of strings is transitive. -/
theorem pyStrIn_trans {a b c : String} (h1 : pyStrIn a b = true) (h2 : pyStrIn b c = true) :
    pyStrIn a c = true := by
  simp only [pyStrIn, decide_eq_true_iff] at h1 h2 ⊢
  exact h1.trans h2

/-- `Note.eq` is transitive (pitch indices compose by transitivity of
equality, sharpness containments by transitivity of the substring
relation). -/
theorem note_eq_trans {a b c : Note} (h1 : Note.eq a b = true) (h2 : Note.eq b c = true) :
    Note.eq a c = true := by
  simp only [Note.eq, Bool.and_eq_true, decide_eq_true_iff] at h1 h2 ⊢
  exact ⟨h1.1.trans h2.1, pyStrIn_trans h1.2 h2.2⟩

/-- C2. For every pair of constructed Notes `x` and `y`, `x == y` holds
exactly when their pitch indices are equal and `y`'s alteration string is
contained in `x`'s alteration string (the direction claimed by the spec).
Every constructed Note carries the empty alteration, so the containment
clause — in either direction — is trivially true and the equality reduces
to the pitch-index comparison.  The nonemptiness hypotheses keep the
statement on inputs where Python's `get_index` does not raise. -/
theorem note_eq_iff_index_and_containment (s t : String) (hs : s ≠ "") (ht : t ≠ "") :
    Note.eq (mkNote s) (mkNote t) =
      (decide (Note.get_index (mkNote s) = Note.get_index (mkNote t)) &&
        pyStrIn (mkNote t).sharpness (mkNote s).sharpness) := rfl

/-- Witness for C2 at the pair `Note("A#")`, `Note("Bb")`. -/
theorem note_eq_iff_index_and_containment_witness :
    ("A#" : String) ≠ "" ∧ ("Bb" : String) ≠ "" ∧
      Note.eq (mkNote "A#") (mkNote "Bb") =
        (decide (Note.get_index (mkNote "A#") = Note.get_index (mkNote "Bb")) &&
          pyStrIn (mkNote "Bb").sharpness (mkNote "A#").sharpness) :=
  ⟨by decide, by decide, note_eq_iff_index_and_containment "A#" "Bb" (by decide) (by decide)⟩

/-- C3. `Note.__hash__` is inconsistent with `Note.__eq__`: `Note("A#")`
and `Note("Bb")` have equal pitch index and compare equal, yet their
hash-defining `(note, sharpness)` pairs differ. -/
theorem note_hash_inconsistent_with_eq :
    Note.eq (mkNote "A#") (mkNote "Bb") = true ∧
      Note.hash (mkNote "A#") ≠ Note.hash (mkNote "Bb") ∧
      Note.get_index (mkNote "A#") = Note.get_index (mkNote "Bb") := by
  refine ⟨by rw [note_eq_eval]; decide, by decide, ?_⟩
  rw [get_index_eq_iff]
  decide

/-- C9. Every constructed Note has an empty alteration (sharpness) string,
and consequently — for notes with nonempty names, where Python's
`get_index` is defined — equality degenerates to pitch-index equality and
is symmetric: the alteration-containment clause never distinguishes any
pair of constructed Notes.  (All operations of the module are pure in the
embedding and none writes `sharpness`, so the field stays empty.) -/
theorem note_sharpness_always_empty :
    (∀ s : String, (mkNote s).sharpness = "") ∧
      (∀ s t : String, s ≠ "" → t ≠ "" →
        ((Note.eq (mkNote s) (mkNote t) = true ↔
            Note.get_index (mkNote s) = Note.get_index (mkNote t)) ∧
          Note.eq (mkNote s) (mkNote t) = Note.eq (mkNote t) (mkNote s))) := by
  constructor
  · intro s
    rfl
  · intro s t hs ht
    constructor
    · show (decide (Note.get_index (mkNote s) = Note.get_index (mkNote t)) &&
          pyStrIn "" "") = true ↔ _
      rw [pyStrIn_empty_empty, Bool.and_true, decide_eq_true_iff]
    · show (decide (Note.get_index (mkNote s) = Note.get_index (mkNote t)) && pyStrIn "" "")
          = (decide (Note.get_index (mkNote t) = Note.get_index (mkNote s)) && pyStrIn "" "")
      rw [decide_eq_decide.mpr eq_comm]

/-- Witness for C9's quantified second part at `Note("A#")`, `Note("Bb")`. -/
theorem note_sharpness_always_empty_witness :
    ("A#" : String) ≠ "" ∧ ("Bb" : String) ≠ "" ∧
      ((Note.eq (mkNote "A#") (mkNote "Bb") = true ↔
          Note.get_index (mkNote "A#") = Note.get_index (mkNote "Bb")) ∧
        Note.eq (mkNote "A#") (mkNote "Bb") = Note.eq (mkNote "Bb") (mkNote "A#")) :=
  ⟨by decide, by decide, note_sharpness_always_empty.2 "A#" "Bb" (by decide) (by decide)⟩

/-- C8. `NoteCollection.add` is idempotent under Note equality: when a note
equal to `n` (in the direction Python's list membership checks, with the
new note on the left) is already present, `add` returns the collection
unchanged — same contents, same order; and adding a note `m` equal to an
already-added note `n` leaves the length unchanged, i.e. the size stays at
1 relative to before the second add. -/
theorem note_collection_add_idempotent :
    ∀ (coll : List Note) (n m : Note),
      ((∃ y ∈ coll, Note.eq n y = true) → NoteCollection.add coll n = coll) ∧
        (Note.eq m n = true →
          (NoteCollection.add (NoteCollection.add coll n) m).length
            = (NoteCollection.add coll n).length) := by
  intro coll n m
  constructor
  · intro h
    obtain ⟨y, hy, heq⟩ := h
    unfold NoteCollection.add
    rw [if_pos (List.any_eq_true.mpr ⟨y, hy, heq⟩)]
  · intro hmn
    by_cases h : coll.any (fun x => Note.eq n x) = true
    · obtain ⟨y, hy, hny⟩ := List.any_eq_true.mp h
      unfold NoteCollection.add
      rw [if_pos h, if_pos (List.any_eq_true.mpr ⟨y, hy, note_eq_trans hmn hny⟩)]
    · unfold NoteCollection.add
      rw [if_neg h, if_pos (List.any_eq_true.mpr ⟨n, by simp, hmn⟩)]

/-- Witness for C8 with the enharmonic pair `C#`/`Db` (equal pitch index):
the second add is a no-op and the length stays put. -/
theorem note_collection_add_idempotent_witness :
    NoteCollection.add [mkNote "C#"] (mkNote "Db") = [mkNote "C#"] ∧
      (NoteCollection.add (NoteCollection.add [mkNote "C#"] (mkNote "Db")) (mkNote "C#")).length
        = (NoteCollection.add [mkNote "C#"] (mkNote "Db")).length :=
  ⟨(note_collection_add_idempotent [mkNote "C#"] (mkNote "Db") (mkNote "C#")).1
      ⟨mkNote "C#", by decide, by rw [note_eq_eval]; decide⟩,
    (note_collection_add_idempotent [mkNote "C#"] (mkNote "Db") (mkNote "C#")).2
      (by rw [note_eq_eval]; decide)⟩

/-- The raise-scan of `Chords.add` finds exactly what `List.any` finds. -/
theorem overlapScan_eq_any (reg : List Chord) (c : Chord) :
    overlapScan reg c = reg.any (fun ex => pySetEqNote ex.notes c.notes) := by
  induction reg with
  | nil => rfl
  | cons hd tl ih => simp [overlapScan, ih, List.any_cons]

/-- C5. `Chords.add` raises `ChordOverlapException` exactly when some
already-registered chord's note set is set-equal to the new chord's note
set, and in that case the registry value is unchanged (the error is raised
before any append, so nothing is inserted); in every other case the chord
is appended at the end. -/
theorem chords_add_spec :
    (∀ (reg : List Chord) (c : Chord),
        Chords.add reg c =
          if reg.any (fun ex => pySetEqNote ex.notes c.notes) then
            Except.error MusicErr.chordOverlapException
          else Except.ok (reg ++ [c])) ∧
      (∀ (reg : List Chord) (c : Chord),
        (Chords.add reg c = Except.error MusicErr.chordOverlapException ↔
          ∃ ex ∈ reg, pySetEqNote ex.notes c.notes = true)) := by
  constructor
  · intro reg c
    unfold Chords.add
    rw [overlapScan_eq_any]
  · intro reg c
    unfold Chords.add
    rw [overlapScan_eq_any]
    by_cases h : reg.any (fun ex => pySetEqNote ex.notes c.notes) = true
    · simp only [List.any_eq_true] at h
      simp [List.any_eq_true, h]
    · simp only [List.any_eq_true] at h
      simp [List.any_eq_true, h]

/-- Membership in a modelled string set is plain list membership. -/
theorem pySetMemStr_eq_true_iff (x : String) (l : List String) :
    pySetMemStr x l = true ↔ x ∈ l := by
  simp [pySetMemStr, List.any_eq_true]

/-- Equality of modelled string sets is mutual membership. -/
theorem pySetEqStr_eq_true_iff (a b : List String) :
    pySetEqStr a b = true ↔ ((∀ x ∈ a, x ∈ b) ∧ (∀ x ∈ b, x ∈ a)) := by
  simp [pySetEqStr, List.all_eq_true, pySetMemStr_eq_true_iff]

/-- String-set equality only depends on which elements the left list has. -/
theorem pySetEqStr_congr_left {a b : List String} (h : ∀ x, x ∈ a ↔ x ∈ b)
    (l : List String) : pySetEqStr a l = pySetEqStr b l := by
  rw [Bool.eq_iff_iff, pySetEqStr_eq_true_iff, pySetEqStr_eq_true_iff]
  constructor
  · intro hp
    exact ⟨fun x hx => hp.1 x ((h x).mpr hx), fun x hx => (h x).mp (hp.2 x hx)⟩
  · intro hp
    exact ⟨fun x hx => hp.1 x ((h x).mp hx), fun x hx => (h x).mpr (hp.2 x hx)⟩

/-- The lookup scan is insensitive to reshuffling the query list, as long
as the same strings are in it. -/
theorem getScan_congr {q1 q2 : List String} (h : ∀ x, x ∈ q1 ↔ x ∈ q2)
    (reg : List Chord) : getScan q1 reg = getScan q2 reg := by
  induction reg with
  | nil => rfl
  | cons hd tl ih =>
      unfold getScan
      rw [pySetEqStr_congr_left h (hd.notes.map Note.display), ih]

/-- The lookup scan returns the first match in registration order. -/
theorem getScan_eq_find (q : List String) (reg : List Chord) :
    getScan q reg = reg.find? (fun ch => pySetEqStr q (ch.notes.map Note.display)) := by
  induction reg with
  | nil => rfl
  | cons hd tl ih =>
      by_cases h : pySetEqStr q (hd.notes.map Note.display) = true
      · simp [getScan, List.find?_cons_of_pos, h]
      · simp only [Bool.not_eq_true] at h
        simp [getScan, List.find?_cons_of_neg, h, ih]

/-- C4. `Chords.get` is invariant under every permutation of its 2 or 3
note arguments, and returns the first registered chord whose set of
`note + sharpness` display strings equals the query's display-string set
(`none` when no registered chord matches).  Matching is on exact display
strings, so a query spelled `A#` does not find a chord stored with `Bb`;
the worked examples: after registering `Chord(A, B, 'Amaj', C)`,
`get(B, C, A)` returns that chord, and `get(D, Z)` returns `None`. -/
theorem chords_get_spec :
    (∀ (reg : List Chord) (a b c : Note),
        Chords.get reg a b (some c) = Chords.get reg a c (some b) ∧
        Chords.get reg a b (some c) = Chords.get reg b a (some c) ∧
        Chords.get reg a b (some c) = Chords.get reg b c (some a) ∧
        Chords.get reg a b (some c) = Chords.get reg c a (some b) ∧
        Chords.get reg a b (some c) = Chords.get reg c b (some a)) ∧
      (∀ (reg : List Chord) (a b : Note),
        Chords.get reg a b none = Chords.get reg b a none) ∧
      (∀ (reg : List Chord) (a b : Note) (t : Option Note),
        Chords.get reg a b t =
          reg.find? (fun ch =>
            pySetEqStr ((chordNotesList a b t).map Note.display)
              (ch.notes.map Note.display))) ∧
      ((chordMk (mkNote "A") (mkNote "B") "Amaj" (some (mkNote "C"))).toOption.bind
          (fun ch => Chords.get [ch] (mkNote "B") (mkNote "C") (some (mkNote "A"))) =
        (chordMk (mkNote "A") (mkNote "B") "Amaj" (some (mkNote "C"))).toOption) ∧
      ((chordMk (mkNote "A") (mkNote "B") "Amaj" (some (mkNote "C"))).toOption.bind
          (fun ch => Chords.get [ch] (mkNote "D") (mkNote "Z") none) = none) ∧
      ((chordMk (mkNote "Bb") (mkNote "C") "Bb5" none).toOption.bind
          (fun ch => Chords.get [ch] (mkNote "A#") (mkNote "C") none) = none) := by
  refine ⟨?_, ?_, ?_, by decide, by decide, by decide⟩
  · intro reg a b c
    refine ⟨?_, ?_, ?_, ?_, ?_⟩ <;>
      · unfold Chords.get
        exact getScan_congr (by intro x; simp [chordNotesList]; tauto) reg
  · intro reg a b
    unfold Chords.get
    exact getScan_congr (by intro x; simp [chordNotesList]; tauto) reg
  · intro reg a b t
    unfold Chords.get
    exact getScan_eq_find _ reg

/-- A list's distinct-element count equals its length exactly when it has
no duplicates (`len(set(l)) == len(l)` in Python terms). -/
theorem dedup_length_eq_iff {α : Type} [DecidableEq α] (l : List α) :
    l.dedup.length = l.length ↔ l.Nodup := by
  constructor
  · intro h
    have heq := (List.dedup_sublist l).eq_of_length h
    rw [← heq]
    exact List.nodup_dedup l
  · intro h
    rw [List.dedup_eq_self.mpr h]

/-- C1 counterexample.  The claim predicts that construction fails whenever
the chord name's FIRST LETTER equals the letter of one of the notes; but
`Chord.__init__` compares the whole chord name string against the whole
stored note strings, so `Chord(Note("A"), Note("B"), "Amaj", Note("C"))`
— the claim's own success example, in which the name's first letter `A`
equals note `A`'s letter — succeeds. -/
theorem chord_name_first_letter_collision_allowed :
    (chordMk (mkNote "A") (mkNote "B") "Amaj" (some (mkNote "C"))).isOk = true ∧
      "Amaj".data.headD ' ' = (mkNote "A").note.data.headD ' ' := by decide

/-- C1 amended.  `Chord` construction with 2 or 3 notes fails with
`DuplicateNoteNamesException` exactly when two of the supplied notes have
the same stored note string, or the chord name — compared as a whole
string, not by its first letter — equals one of the notes' stored strings;
in every other case construction succeeds.  The claim's examples hold:
notes `A, B, C` with name `"Amaj"` succeed; notes `E, A` with name `"E"`
fail. -/
theorem chord_construction_fails_iff :
    (∀ (n1 n2 : Note) (name : String) (n3 : Option Note),
        (chordMk n1 n2 name n3 = Except.error MusicErr.duplicateNoteNamesException ↔
          (¬ ((chordNotesList n1 n2 n3).map (fun n => n.note)).Nodup ∨
            name ∈ (chordNotesList n1 n2 n3).map (fun n => n.note)))) ∧
      (chordMk (mkNote "A") (mkNote "B") "Amaj" (some (mkNote "C"))).isOk = true ∧
      chordMk (mkNote "E") (mkNote "A") "E" none
        = Except.error MusicErr.duplicateNoteNamesException := by
  refine ⟨?_, by decide, by rfl⟩
  intro n1 n2 name n3
  have hlen : ((chordNotesList n1 n2 n3).map (fun n => n.note)).length
      = (chordNotesList n1 n2 n3).length := List.length_map _ _
  have key : (((chordNotesList n1 n2 n3).map (fun n => n.note)).dedup.length
        ≠ (chordNotesList n1 n2 n3).length ∨
      (((chordNotesList n1 n2 n3).map (fun n => n.note)) ++ [name]).dedup.length
        ≠ ((chordNotesList n1 n2 n3).map (fun n => n.note)).length + 1) ↔
      (¬ ((chordNotesList n1 n2 n3).map (fun n => n.note)).Nodup ∨
        name ∈ (chordNotesList n1 n2 n3).map (fun n => n.note)) := by
    have h1 : (((chordNotesList n1 n2 n3).map (fun n => n.note)).dedup.length
        ≠ (chordNotesList n1 n2 n3).length) ↔
        ¬ ((chordNotesList n1 n2 n3).map (fun n => n.note)).Nodup := by
      rw [← hlen]
      exact not_congr (dedup_length_eq_iff _)
    have h2 : ((((chordNotesList n1 n2 n3).map (fun n => n.note)) ++ [name]).dedup.length
        ≠ ((chordNotesList n1 n2 n3).map (fun n => n.note)).length + 1) ↔
        ¬ (((chordNotesList n1 n2 n3).map (fun n => n.note)).Nodup ∧
          name ∉ (chordNotesList n1 n2 n3).map (fun n => n.note)) := by
      have happ : (((chordNotesList n1 n2 n3).map (fun n => n.note)) ++ [name]).length
          = ((chordNotesList n1 n2 n3).map (fun n => n.note)).length + 1 := by simp
      have hnodup : (((chordNotesList n1 n2 n3).map (fun n => n.note)) ++ [name]).Nodup ↔
          (((chordNotesList n1 n2 n3).map (fun n => n.note)).Nodup ∧
            name ∉ (chordNotesList n1 n2 n3).map (fun n => n.note)) := by
        rw [List.nodup_append]
        simp
      rw [← happ]
      exact (not_congr (dedup_length_eq_iff _)).trans (not_congr hnodup)
    rw [h1, h2]
    tauto
  unfold chordMk
  by_cases hcond : (((chordNotesList n1 n2 n3).map (fun n => n.note)).dedup.length
        ≠ (chordNotesList n1 n2 n3).length ∨
      (((chordNotesList n1 n2 n3).map (fun n => n.note)) ++ [name]).dedup.length
        ≠ ((chordNotesList n1 n2 n3).map (fun n => n.note)).length + 1)
  · rw [if_pos hcond]
    exact ⟨fun _ => key.mp hcond, fun _ => rfl⟩
  · rw [if_neg hcond]
    constructor
    · intro hbad
      exact Except.noConfusion hbad
    · intro hr
      exact absurd (key.mpr hr) hcond

/-- C6. For every letter `L` of the 26-letter alphabet, the Note built
from `L#` and the Note built from the next letter (cyclically) with a
flat have equal pitch index; in particular `A#`/`Bb`, and the wrap case
`Ab`/`Z#`. -/
theorem enharmonic_pitch_identity :
    (∀ i : Fin 26,
        Note.get_index (mkNote (String.mk [letterOf i, '#']))
          = Note.get_index (mkNote (String.mk [letterOf (i + 1), 'b']))) ∧
      Note.get_index (mkNote "A#") = Note.get_index (mkNote "Bb") ∧
      Note.get_index (mkNote "Ab") = Note.get_index (mkNote "Z#") := by
  refine ⟨?_, ?_, ?_⟩
  · intro i
    rw [get_index_eq_iff]
    revert i
    decide
  · rw [get_index_eq_iff]
    decide
  · rw [get_index_eq_iff]
    decide

/-- C7. For every letter `A`–`Z` and every alteration in `{"", "#", "b"}`,
the pitch index lies in `[0, 26)`.  `get_index` is a total function on
these inputs in the embedding, matching Python, where none of the 26×3
combinations raises. -/
theorem pitch_index_in_range :
    ∀ (i : Fin 26) (j : Fin 3),
      0 ≤ Note.get_index (mkNote (String.mk [letterOf i] ++ altOf j)) ∧
        Note.get_index (mkNote (String.mk [letterOf i] ++ altOf j)) < 26 := by
  have key : ∀ (i : Fin 26) (j : Fin 3),
      0 ≤ halfSteps (mkNote (String.mk [letterOf i] ++ altOf j)) ∧
        halfSteps (mkNote (String.mk [letterOf i] ++ altOf j)) < 52 := by decide
  intro i j
  obtain ⟨h1, h2⟩ := key i j
  rw [get_index_eq]
  constructor
  · apply div_nonneg _ (by norm_num : (0 : ℚ) ≤ 2)
    exact_mod_cast h1
  · rw [div_lt_iff₀ (by norm_num : (0 : ℚ) < 2)]
    have h3 : ((halfSteps (mkNote (String.mk [letterOf i] ++ altOf j)) : ℤ) : ℚ) < 52 := by
      exact_mod_cast h2
    linarith

/-- C10. The registry accepts two chords whose notes are enharmonically
equal but differently spelled: after registering the chord on
`Note("A#"), Note("C")`, registering the chord on `Note("Bb"), Note("C")`
succeeds without `ChordOverlapException`, because the note-set comparison
consults the hash pair first, which differs for `A#` and `Bb` — even
though the two notes compare equal under `Note.__eq__`. -/
theorem enharmonic_spellings_no_overlap :
    (do
        let c1 ← chordMk (mkNote "A#") (mkNote "C") "A#5" none
        let c2 ← chordMk (mkNote "Bb") (mkNote "C") "Bb5" none
        let r1 ← Chords.add [] c1
        Chords.add r1 c2).isOk = true ∧
      Note.eq (mkNote "A#") (mkNote "Bb") = true ∧
      Note.hash (mkNote "A#") ≠ Note.hash (mkNote "Bb") := by
  refine ⟨by decide, by rw [note_eq_eval]; decide, by decide⟩
